import Mathlib

/-!
Shallow embedding of `src/randomRedisWithFuzzer.cpp`.

Commands and file lines are modelled as `List Char` (the content of a
`std::string` line; lines obtained via `std::getline` never contain a
newline character).  A text file is modelled as its list of lines.  The
C standard library `rand()` is modelled as an abstract stream
`rng : Nat → Nat` of non-negative values, consumed at successive indices
in exactly the order the C++ code calls `rand()`.
-/

namespace RedisFuzzer

/-- The fixed special-character set of `fuzzCommand` (line 57). -/
def specialChars : List Char := "!@#$%^&*()_-+=<>?/".data

/-- Helper loop of `readLineFromFile` (lines 25–27): mirrors
`while (std::getline(file, line) && currentLine < lineNum) currentLine++;`.
Each step reads one line; when `std::getline` fails at end of file the
string is left erased, hence the `[]` result in the nil case. -/
def readLineFromFileGo (lineNum : Nat) : List (List Char) → Nat → List Char
  | [], _ => []
  | l :: rest, currentLine =>
    if currentLine < lineNum then readLineFromFileGo lineNum rest (currentLine + 1) else l

/-- `readLineFromFile` (lines 20–30): returns the `lineNum`-th (0-based) line of
the file. -/
def readLineFromFile (file : List (List Char)) (lineNum : Nat) : List Char :=
  readLineFromFileGo lineNum file 0

/-- `countFileLines` (lines 33–43): counts the lines of the file by repeated
`std::getline`. -/
def countFileLines : List (List Char) → Nat
  | [] => 0
  | _ :: rest => countFileLines rest + 1

/-- `randomCommand` (lines 46–49): `lineNum = rand() % fileLength`, then read
that line.  `r` is the value returned by the single `rand()` call.  `main`
only calls this after checking `fileLength != 0` (lines 137–141). -/
def randomCommand (commandsFile : List (List Char)) (fileLength : Nat) (r : Nat) : List Char :=
  readLineFromFile commandsFile (r % fileLength)

/-- `fuzzCommand` (lines 52–66).  `r1` and `r2` are the two successive `rand()`
values (line 58 then line 59).  When `command` is empty and fuzzing is
enabled, line 58 computes `rand() % 0`, division by zero and undefined
behavior in C++; this is modelled by `none`. -/
def fuzzCommand (command : List Char) (fuzzEnabled : Bool) (r1 r2 : Nat) : Option (List Char) :=
  if fuzzEnabled = false then
    some command
  else if command.length = 0 then
    none
  else
    let randIndex := r1 % command.length
    let randSpecialIndex := r2 % specialChars.length
    let specialChar := specialChars.getD randSpecialIndex ' '
    some (command.take randIndex ++ specialChar :: command.drop randIndex)

/-- The external world of one run after successful setup: the commands file
content, the parsed configuration, the `rand()` stream, and oracles for the
outcome of each fallible external call of the main loop (lines 157–230):
`replyOk k` is whether the `k`-th `redisGetReply` call of the whole run
returns `REDIS_OK`; `tempOpenOk n` / `outOpenOk n` are whether opening the
scratch file (line 159) / the audit log (line 213) succeeds in batch `n`. -/
structure Env where
  corpus : List (List Char)
  fuzzEnabled : Bool
  port : Nat
  rng : Nat → Nat
  replyOk : Nat → Bool
  tempOpenOk : Nat → Bool
  outOpenOk : Nat → Bool

/-- Mutable state of the main loop: `ridx` counts `rand()` calls made so far,
`replyIdx` counts `redisGetReply` calls, `repliesConsumed` counts replies
successfully read (and freed), `sent` is the cumulative list of commands
passed to `redisAppendCommand`, `temp` is the current content (lines) of the
scratch file, and `audit` is the cumulative content (lines) of the audit
log. -/
structure St where
  ridx : Nat
  replyIdx : Nat
  repliesConsumed : Nat
  sent : List (List Char)
  temp : List (List Char)
  audit : List (List Char)
deriving DecidableEq

/-- The state at loop entry: no `rand()` consumed, nothing sent, the scratch
file freshly created empty by `mkstemp` (line 71), audit log not yet
written. -/
def initSt : St :=
  ⟨0, 0, 0, [], [], []⟩

/-- The liveness probe `"PING " + std::to_string(port)` (line 179). -/
def pingCommand (port : Nat) : List Char :=
  ("PING " ++ toString port).data

/-- The audit-log batch header `"BATCH NUMBER - " << batchNum` (line 220). -/
def batchHeader (batchNum : Nat) : List Char :=
  ("BATCH NUMBER - " ++ toString batchNum).data

/-- The command-generation loop of one batch (lines 170–176): `n` iterations,
each sampling one corpus line (`randomCommand`, one `rand()`) and passing it
through `fuzzCommand` (two more `rand()` calls when fuzzing is enabled, none
otherwise).  `ridx` is the current position in the `rand()` stream; the
result pairs the generated command list with the stream position after the
loop.  `none` propagates the undefined behavior of fuzzing an empty line. -/
def genCommands (env : Env) : Nat → Nat → Option (List (List Char) × Nat)
  | 0, ridx => some ([], ridx)
  | n + 1, ridx =>
    let cmd := randomCommand env.corpus (countFileLines env.corpus) (env.rng ridx)
    match fuzzCommand cmd env.fuzzEnabled (env.rng (ridx + 1)) (env.rng (ridx + 2)) with
    | none => none
    | some fuzzedCmd =>
      match genCommands env n (if env.fuzzEnabled then ridx + 3 else ridx + 1) with
      | none => none
      | some p => some (fuzzedCmd :: p.1, p.2)

/-- Batch construction (lines 166–181): draw `pipelineSize = rand() % 10 + 1`,
generate that many commands, then append the liveness probe.  Returns the
full command list (which is also, line for line, what is written to the
truncated scratch file) and the `rand()` stream position after the batch. -/
def buildBatch (env : Env) (ridx : Nat) : Option (List (List Char) × Nat) :=
  match genCommands env (env.rng ridx % 10 + 1) (ridx + 1) with
  | none => none
  | some p => some (p.1 ++ [pingCommand env.port], p.2)

/-- The reply-draining loop (lines 194–205) for `n` expected replies:
each iteration calls `redisGetReply` (advancing `replyIdx`); on failure it
sets `success = false` and breaks, on success it frees the reply
(advancing `repliesConsumed`).  Returns
`(success, final replyIdx, final repliesConsumed)`. -/
def readReplies (env : Env) : Nat → Nat → Nat → Bool × Nat × Nat
  | 0, replyIdx, repliesConsumed => (true, replyIdx, repliesConsumed)
  | n + 1, replyIdx, repliesConsumed =>
    if env.replyOk replyIdx = false then (false, replyIdx + 1, repliesConsumed)
    else readReplies env n (replyIdx + 1) (repliesConsumed + 1)

/-- Possible outcomes of one iteration of the main loop. -/
inductive BatchOut where
  /-- Lines 160–164: the scratch file could not be reopened; `redisFree` and
  `return 1` without removing the scratch file. -/
  | fatalTempOpen (st : St)
  /-- Lines 196–210: some reply read failed; `redisFree` and `return 1`
  without logging the batch and without removing the scratch file. -/
  | fatalRead (st : St)
  /-- Lines 214–218: the audit log could not be opened; `redisFree` and
  `return 1` without removing the scratch file. -/
  | fatalOutOpen (st : St)
  /-- Lines 220–229: the batch was logged; continue with the next batch. -/
  | next (st : St)
deriving DecidableEq

/-- One iteration of the main loop (lines 158–229) for batch number `bn`:
truncate the scratch file, build the batch writing each command to the
scratch file, append every command to the connection (lines 186–188), drain
the replies, and on success append a blank line, the batch header and the
scratch file's lines to the audit log (lines 212–229).  `none` propagates
the undefined behavior of fuzzing an empty line. -/
def runBatch (env : Env) (bn : Nat) (st : St) : Option BatchOut :=
  if env.tempOpenOk bn = false then some (BatchOut.fatalTempOpen st)
  else
    match buildBatch env st.ridx with
    | none => none
    | some p =>
      let commands := p.1
      let r := readReplies env commands.length st.replyIdx st.repliesConsumed
      if r.1 = false then
        some (BatchOut.fatalRead ⟨p.2, r.2.1, r.2.2, st.sent ++ commands, commands, st.audit⟩)
      else if env.outOpenOk bn = false then
        some (BatchOut.fatalOutOpen ⟨p.2, r.2.1, r.2.2, st.sent ++ commands, commands, st.audit⟩)
      else
        some (BatchOut.next ⟨p.2, r.2.1, r.2.2, st.sent ++ commands, commands,
          st.audit ++ [] :: batchHeader bn :: commands⟩)

/-- Observable outcome of a whole run: the process exit code, whether
`redisFree` was called on the exit path, whether the scratch file was
removed (`std::remove`, line 234), and the final loop state. -/
structure RunResult where
  exitCode : Nat
  connFreed : Bool
  tempRemoved : Bool
  st : St
deriving DecidableEq

/-- The main loop (lines 157–236): `k` is the number of remaining iterations,
`bn` the current batch number.  When the loop completes, the cleanup at
lines 232–236 frees the connection, removes the scratch file and returns 0.
Every fatal batch outcome frees the connection and returns 1 but does not
remove the scratch file. -/
def runLoop (env : Env) : Nat → Nat → St → Option RunResult
  | 0, _, st => some ⟨0, true, true, st⟩
  | k + 1, bn, st =>
    match runBatch env bn st with
    | none => none
    | some (BatchOut.fatalTempOpen st2) => some ⟨1, true, false, st2⟩
    | some (BatchOut.fatalRead st2) => some ⟨1, true, false, st2⟩
    | some (BatchOut.fatalOutOpen st2) => some ⟨1, true, false, st2⟩
    | some (BatchOut.next st2) => runLoop env k (bn + 1) st2

/-- The run after successful setup: the `for` loop
`for (int batchNum = 1; batchNum <= numBatches; batchNum++)` executes its
body exactly `numBatches.toNat` times (zero times when `numBatches ≤ 0`,
since `batchNum` starts at 1), then the cleanup at lines 232–236 runs. -/
def mainRun (env : Env) (numBatches : Int) : Option RunResult :=
  runLoop env numBatches.toNat 1 initSt

/-- A concrete run configuration: two-line corpus, fuzzing disabled, port 6379,
`rand()` stream `0, 1, 2, …`, and all external calls succeeding. -/
def sampleEnv : Env :=
  ⟨[['G', 'E', 'T'], ['S', 'E', 'T']], false, 6379, fun i => i,
    fun _ => true, fun _ => true, fun _ => true⟩

/-- A concrete run configuration whose second `redisGetReply` call fails. -/
def failEnv : Env :=
  ⟨[['P'], ['G', 'E', 'T']], false, 6379, fun i => i,
    fun j => decide (j = 0), fun _ => true, fun _ => true⟩

/-- The state produced by the first (successful) batch of `sampleEnv`. -/
def sampleBatchSt : St :=
  match runBatch sampleEnv 1 initSt with
  | some (BatchOut.next st) => st
  | _ => initSt

/-- The outcome of a one-batch run of `sampleEnv`. -/
def sampleRes : RunResult :=
  (mainRun sampleEnv 1).getD ⟨0, false, false, initSt⟩

/-- The outcome of a one-batch run of `failEnv` (its reply read fails). -/
def failRes : RunResult :=
  (mainRun failEnv 1).getD ⟨0, false, false, initSt⟩

theorem countFileLines_eq_length (file : List (List Char)) :
    countFileLines file = file.length := by
  induction file with
  | nil => rfl
  | cons l rest ih => simp [countFileLines, ih]

theorem specialChars_length : specialChars.length = 18 := rfl

theorem readLineFromFileGo_spec (lineNum : Nat) (file : List (List Char)) :
    ∀ currentLine : Nat, currentLine ≤ lineNum → lineNum - currentLine < file.length →
      readLineFromFileGo lineNum file currentLine = file.getD (lineNum - currentLine) [] := by
  induction file with
  | nil =>
    intro cur _ hlt
    simp at hlt
  | cons l rest ih =>
    intro cur hle hlt
    by_cases hc : cur < lineNum
    · rw [readLineFromFileGo, if_pos hc]
      rw [ih (cur + 1) hc (by simp at hlt; omega)]
      have hsub : lineNum - cur = (lineNum - (cur + 1)) + 1 := by omega
      rw [hsub, List.getD_cons_succ]
    · have hcur : cur = lineNum := by omega
      subst hcur
      rw [readLineFromFileGo, if_neg hc, Nat.sub_self, List.getD_cons_zero]

theorem readLineFromFile_spec (file : List (List Char)) (lineNum : Nat)
    (h : lineNum < file.length) :
    readLineFromFile file lineNum = file.getD lineNum [] := by
  rw [readLineFromFile, readLineFromFileGo_spec lineNum file 0 (Nat.zero_le _) (by simpa using h),
    Nat.sub_zero]

theorem card_range_mod (N i k : Nat) (hN : 0 < N) (hi : i < N) :
    ((Finset.range (k * N)).filter (fun r => r % N = i)).card = k := by
  have himg : (Finset.range (k * N)).filter (fun r => r % N = i)
      = (Finset.range k).image (fun q => q * N + i) := by
    ext r
    simp only [Finset.mem_filter, Finset.mem_range, Finset.mem_image]
    constructor
    · rintro ⟨hr, hmod⟩
      refine ⟨r / N, (Nat.div_lt_iff_lt_mul hN).mpr hr, ?_⟩
      conv_rhs => rw [← Nat.div_add_mod r N]
      rw [hmod, Nat.mul_comm]
    · rintro ⟨q, hq, rfl⟩
      constructor
      · calc q * N + i < q * N + N := by omega
          _ = (q + 1) * N := by ring
          _ ≤ k * N := Nat.mul_le_mul_right N hq
      · rw [Nat.add_comm, Nat.add_mul_mod_self_right, Nat.mod_eq_of_lt hi]
  rw [himg, Finset.card_image_of_injective _ ?_, Finset.card_range]
  intro a b hab
  have hab2 : a * N + i = b * N + i := hab
  have hmul : a * N = b * N := by omega
  exact Nat.eq_of_mul_eq_mul_right hN hmul

theorem fuzzCommand_enabled (command : List Char) (h : command.length ≠ 0) (r1 r2 : Nat) :
    fuzzCommand command true r1 r2 =
      some (command.take (r1 % command.length) ++
        specialChars.getD (r2 % specialChars.length) ' ' :: command.drop (r1 % command.length)) := by
  rw [fuzzCommand, if_neg (by simp), if_neg h]

theorem genCommands_length (env : Env) :
    ∀ (n ridx : Nat) (p : List (List Char) × Nat),
      genCommands env n ridx = some p → p.1.length = n := by
  intro n
  induction n with
  | zero =>
    intro ridx p h
    rw [genCommands] at h
    cases h
    rfl
  | succ m ih =>
    intro ridx p h
    rw [genCommands] at h
    cases hf : fuzzCommand (randomCommand env.corpus (countFileLines env.corpus) (env.rng ridx))
        env.fuzzEnabled (env.rng (ridx + 1)) (env.rng (ridx + 2)) with
    | none => rw [hf] at h; cases h
    | some fz =>
      rw [hf] at h
      cases hg : genCommands env m (if env.fuzzEnabled then ridx + 3 else ridx + 1) with
      | none => rw [hg] at h; cases h
      | some q =>
        rw [hg] at h
        cases h
        simp [ih _ q hg]

theorem buildBatch_spec (env : Env) (ridx : Nat) (p : List (List Char) × Nat)
    (h : buildBatch env ridx = some p) :
    p.1.length = env.rng ridx % 10 + 2 ∧ p.1.getLast? = some (pingCommand env.port) := by
  rw [buildBatch] at h
  cases hg : genCommands env (env.rng ridx % 10 + 1) (ridx + 1) with
  | none => rw [hg] at h; cases h
  | some q =>
    rw [hg] at h
    cases h
    refine ⟨?_, ?_⟩
    · simp [genCommands_length env _ _ q hg]
    · simp

theorem readReplies_fail (env : Env) :
    ∀ (i n replyIdx consumed : Nat), i < n →
      (∀ j, j < i → env.replyOk (replyIdx + j) = true) →
      env.replyOk (replyIdx + i) = false →
      readReplies env n replyIdx consumed = (false, replyIdx + i + 1, consumed + i) := by
  intro i
  induction i with
  | zero =>
    intro n replyIdx consumed hn _ hfail
    cases n with
    | zero => omega
    | succ m =>
      simp only [Nat.add_zero] at hfail
      rw [readReplies, if_pos hfail]
      simp
  | succ i ih =>
    intro n replyIdx consumed hn hok hfail
    cases n with
    | zero => omega
    | succ m =>
      have h0 : env.replyOk replyIdx = true := by
        have := hok 0 (Nat.succ_pos i)
        simpa using this
      rw [readReplies, if_neg (by simp [h0])]
      have hok2 : ∀ j, j < i → env.replyOk (replyIdx + 1 + j) = true := by
        intro j hj
        have := hok (j + 1) (by omega)
        rw [← this]
        congr 1
        omega
      have hfail2 : env.replyOk (replyIdx + 1 + i) = false := by
        rw [← hfail]
        congr 1
        omega
      rw [ih m (replyIdx + 1) (consumed + 1) (by omega) hok2 hfail2]
      simp only [Prod.mk.injEq]
      exact ⟨trivial, by omega, by omega⟩

theorem readReplies_success (env : Env) :
    ∀ (n replyIdx consumed : Nat),
      (∀ j, j < n → env.replyOk (replyIdx + j) = true) →
      readReplies env n replyIdx consumed = (true, replyIdx + n, consumed + n) := by
  intro n
  induction n with
  | zero =>
    intro replyIdx consumed _
    rw [readReplies]
    simp
  | succ m ih =>
    intro replyIdx consumed hok
    have h0 : env.replyOk replyIdx = true := by
      have := hok 0 (Nat.succ_pos m)
      simpa using this
    rw [readReplies, if_neg (by simp [h0])]
    have hok2 : ∀ j, j < m → env.replyOk (replyIdx + 1 + j) = true := by
      intro j hj
      have := hok (j + 1) (by omega)
      rw [← this]
      congr 1
      omega
    rw [ih (replyIdx + 1) (consumed + 1) hok2]
    simp only [Prod.mk.injEq]
    exact ⟨trivial, by omega, by omega⟩

theorem runBatch_tempOpen_spec (env : Env) (bn : Nat) (st st2 : St)
    (h : runBatch env bn st = some (BatchOut.fatalTempOpen st2)) :
    st2 = st ∧ env.tempOpenOk bn = false := by
  rw [runBatch] at h
  by_cases ht : env.tempOpenOk bn = false
  · rw [if_pos ht] at h
    cases h
    exact ⟨rfl, ht⟩
  · rw [if_neg ht] at h
    cases hb : buildBatch env st.ridx with
    | none => rw [hb] at h; cases h
    | some p =>
      rw [hb] at h
      simp only at h
      by_cases hr : (readReplies env p.1.length st.replyIdx st.repliesConsumed).1 = false
      · rw [if_pos hr] at h; cases h
      · rw [if_neg hr] at h
        by_cases ho : env.outOpenOk bn = false
        · rw [if_pos ho] at h; cases h
        · rw [if_neg ho] at h; cases h

theorem runBatch_fatalRead_spec (env : Env) (bn : Nat) (st st2 : St)
    (h : runBatch env bn st = some (BatchOut.fatalRead st2)) :
    ∃ cmds ridx2, buildBatch env st.ridx = some (cmds, ridx2) ∧
      env.tempOpenOk bn = true ∧
      (readReplies env cmds.length st.replyIdx st.repliesConsumed).1 = false ∧
      st2 = ⟨ridx2, (readReplies env cmds.length st.replyIdx st.repliesConsumed).2.1,
        (readReplies env cmds.length st.replyIdx st.repliesConsumed).2.2,
        st.sent ++ cmds, cmds, st.audit⟩ := by
  rw [runBatch] at h
  by_cases ht : env.tempOpenOk bn = false
  · rw [if_pos ht] at h; cases h
  · rw [if_neg ht] at h
    cases hb : buildBatch env st.ridx with
    | none => rw [hb] at h; cases h
    | some p =>
      rw [hb] at h
      simp only at h
      by_cases hr : (readReplies env p.1.length st.replyIdx st.repliesConsumed).1 = false
      · rw [if_pos hr] at h
        cases h
        exact ⟨p.1, p.2, rfl, by simpa using ht, hr, rfl⟩
      · rw [if_neg hr] at h
        by_cases ho : env.outOpenOk bn = false
        · rw [if_pos ho] at h; cases h
        · rw [if_neg ho] at h; cases h

theorem runBatch_fatalOutOpen_spec (env : Env) (bn : Nat) (st st2 : St)
    (h : runBatch env bn st = some (BatchOut.fatalOutOpen st2)) :
    st2.audit = st.audit := by
  rw [runBatch] at h
  by_cases ht : env.tempOpenOk bn = false
  · rw [if_pos ht] at h; cases h
  · rw [if_neg ht] at h
    cases hb : buildBatch env st.ridx with
    | none => rw [hb] at h; cases h
    | some p =>
      rw [hb] at h
      simp only at h
      by_cases hr : (readReplies env p.1.length st.replyIdx st.repliesConsumed).1 = false
      · rw [if_pos hr] at h; cases h
      · rw [if_neg hr] at h
        by_cases ho : env.outOpenOk bn = false
        · rw [if_pos ho] at h
          cases h
          rfl
        · rw [if_neg ho] at h; cases h

theorem runBatch_next_spec (env : Env) (bn : Nat) (st st2 : St)
    (h : runBatch env bn st = some (BatchOut.next st2)) :
    ∃ cmds ridx2, buildBatch env st.ridx = some (cmds, ridx2) ∧
      st2.temp = cmds ∧ st2.sent = st.sent ++ cmds ∧
      st2.audit = st.audit ++ [] :: batchHeader bn :: cmds ∧ st2.ridx = ridx2 := by
  rw [runBatch] at h
  by_cases ht : env.tempOpenOk bn = false
  · rw [if_pos ht] at h; cases h
  · rw [if_neg ht] at h
    cases hb : buildBatch env st.ridx with
    | none => rw [hb] at h; cases h
    | some p =>
      rw [hb] at h
      simp only at h
      by_cases hr : (readReplies env p.1.length st.replyIdx st.repliesConsumed).1 = false
      · rw [if_pos hr] at h; cases h
      · rw [if_neg hr] at h
        by_cases ho : env.outOpenOk bn = false
        · rw [if_pos ho] at h; cases h
        · rw [if_neg ho] at h
          cases h
          exact ⟨p.1, p.2, rfl, rfl, rfl, rfl, rfl⟩

theorem runLoop_cleanup (env : Env) :
    ∀ (k bn : Nat) (st : St) (res : RunResult), runLoop env k bn st = some res →
      res.connFreed = true ∧ (res.tempRemoved = true ↔ res.exitCode = 0) := by
  intro k
  induction k with
  | zero =>
    intro bn st res h
    rw [runLoop] at h
    cases h
    simp
  | succ m ih =>
    intro bn st res h
    rw [runLoop] at h
    cases hb : runBatch env bn st with
    | none => rw [hb] at h; cases h
    | some out =>
      rw [hb] at h
      cases out with
      | fatalTempOpen st2 => cases h; simp
      | fatalRead st2 => cases h; simp
      | fatalOutOpen st2 => cases h; simp
      | next st2 => exact ih (bn + 1) st2 res h

theorem runLoop_audit (env : Env) :
    ∀ (k bn : Nat) (st : St) (res : RunResult), runLoop env k bn st = some res →
      ∃ entries : List (Nat × List (List Char)),
        res.st.audit = st.audit ++ (entries.map (fun e => [] :: batchHeader e.1 :: e.2)).flatten ∧
        entries.map Prod.fst = List.range' bn entries.length ∧
        (res.exitCode = 0 → res.st.sent = st.sent ++ (entries.map Prod.snd).flatten) := by
  intro k
  induction k with
  | zero =>
    intro bn st res h
    rw [runLoop] at h
    cases h
    exact ⟨[], by simp, rfl, fun _ => by simp⟩
  | succ m ih =>
    intro bn st res h
    rw [runLoop] at h
    cases hb : runBatch env bn st with
    | none => rw [hb] at h; cases h
    | some out =>
      rw [hb] at h
      cases out with
      | fatalTempOpen st2 =>
        cases h
        obtain ⟨hst, -⟩ := runBatch_tempOpen_spec env bn st st2 hb
        subst hst
        exact ⟨[], by simp, rfl, by intro h0; simp at h0⟩
      | fatalRead st2 =>
        cases h
        obtain ⟨cmds, ridx2, -, -, -, hst⟩ := runBatch_fatalRead_spec env bn st st2 hb
        subst hst
        exact ⟨[], by simp, rfl, by intro h0; simp at h0⟩
      | fatalOutOpen st2 =>
        cases h
        have haud := runBatch_fatalOutOpen_spec env bn st st2 hb
        exact ⟨[], by simp [haud], rfl, by intro h0; simp at h0⟩
      | next st2 =>
        obtain ⟨cmds, ridx2, -, htemp, hsent, haudit, -⟩ := runBatch_next_spec env bn st st2 hb
        obtain ⟨entries, he1, he2, he3⟩ := ih (bn + 1) st2 res h
        refine ⟨(bn, cmds) :: entries, ?_, ?_, ?_⟩
        · rw [he1, haudit]
          simp [List.append_assoc]
        · simp only [List.map_cons, List.length_cons]
          rw [he2]
          rfl
        · intro h0
          rw [he3 h0, hsent]
          simp [List.append_assoc]

theorem specialChars_getD_mem (n : Nat) (h : n < specialChars.length) :
    specialChars.getD n ' ' ∈ specialChars := by
  have h18 : ∀ m : Fin 18, specialChars.getD m.val ' ' ∈ specialChars := by decide
  exact h18 ⟨n, h⟩

/-- C1, counterexample: the claim says the insertion index is uniform over the
full range `[0, len(s)]`, so for `s = "A"` the mutated output `"A!"` (special
character appended after the last character) would have to be reachable for
some pair of `rand()` values; the code computes `rand() % command.length()`,
which for a one-character command is always 0, so no `rand()` values ever
produce `"A!"`. -/
theorem fuzz_never_inserts_at_end :
    ¬ ∃ r1 r2 : Nat, fuzzCommand ['A'] true r1 r2 = some ['A', '!'] := by
  rintro ⟨r1, r2, h⟩
  rw [fuzzCommand_enabled ['A'] (by decide) r1 r2] at h
  simp only [List.length_cons, List.length_nil, Nat.zero_add, Nat.mod_one, List.take_zero,
    List.drop_zero, List.nil_append, Option.some.injEq, List.cons.injEq, and_true] at h
  exact absurd h.2 (by decide)

/-- C1 (amended): with mutation enabled and a non-empty command, the insertion
index is `rand() % len(s)`, uniform over `[0, len(s) - 1]` only — the special
character is never appended after the last character — and the inserted
character is `specialChars[rand() % 18]`, uniform over the fixed
special-character set.  Uniformity is stated as exact equidistribution of
`r % N` when `r` ranges over any whole number of periods. -/
theorem fuzz_mutation_amended (s : List Char) (hs : s.length ≠ 0) (r1 r2 i j k : Nat)
    (hi : i < s.length) (hj : j < specialChars.length) :
    fuzzCommand s true r1 r2 =
      some (s.take (r1 % s.length) ++
        specialChars.getD (r2 % specialChars.length) ' ' :: s.drop (r1 % s.length)) ∧
    r1 % s.length < s.length ∧
    r2 % specialChars.length < specialChars.length ∧
    ((Finset.range (k * s.length)).filter (fun r => r % s.length = i)).card = k ∧
    ((Finset.range (k * specialChars.length)).filter
      (fun r => r % specialChars.length = j)).card = k :=
  ⟨fuzzCommand_enabled s hs r1 r2,
    Nat.mod_lt r1 (Nat.pos_of_ne_zero hs),
    Nat.mod_lt r2 (by decide),
    card_range_mod s.length i k (Nat.pos_of_ne_zero hs) hi,
    card_range_mod specialChars.length j k (by decide) hj⟩

theorem fuzz_mutation_amended_witness :
    fuzzCommand ['A', 'B'] true 5 3 =
      some ((['A', 'B'] : List Char).take (5 % (['A', 'B'] : List Char).length) ++
        specialChars.getD (3 % specialChars.length) ' ' ::
          (['A', 'B'] : List Char).drop (5 % (['A', 'B'] : List Char).length)) ∧
    5 % (['A', 'B'] : List Char).length < (['A', 'B'] : List Char).length ∧
    3 % specialChars.length < specialChars.length ∧
    ((Finset.range (4 * (['A', 'B'] : List Char).length)).filter
      (fun r => r % (['A', 'B'] : List Char).length = 1)).card = 4 ∧
    ((Finset.range (4 * specialChars.length)).filter
      (fun r => r % specialChars.length = 2)).card = 4 :=
  fuzz_mutation_amended ['A', 'B'] (by decide) 5 3 1 2 4 (by decide) (by decide)

/-- C2 (code bug): the claim — and the spec — require `mutate` to avoid
division/modulo by zero on the empty command and insert at index 0; in the
code, an empty command with fuzzing enabled reaches `rand() % command.length()`
with `command.length() == 0`, i.e. modulo by zero (undefined behavior,
modelled as `none`): the modulo-by-zero branch is reachable. -/
theorem fuzz_empty_mod_zero (r1 r2 : Nat) : fuzzCommand [] true r1 r2 = none := rfl

/-- C3, counterexample: for the empty input string with mutation enabled the
code does not return a one-character string; it divides by zero (undefined
behavior, modelled as `none`). -/
theorem fuzz_empty_undefined : fuzzCommand [] true 0 0 = none := rfl

/-- C3 (amended): for every NON-EMPTY input `s`, mutation enabled returns a
string of length `len(s) + 1` that is `s` with exactly one character from the
special-character set inserted at some position (all original characters kept
in relative order); with mutation disabled every input, including the empty
string, is returned unchanged.  (For the empty input with mutation enabled the
code hits modulo by zero; see the counterexample.) -/
theorem mutate_shape_amended (s : List Char) (hs : s.length ≠ 0) (r1 r2 : Nat) :
    (∃ c i, c ∈ specialChars ∧ i ≤ s.length ∧
      fuzzCommand s true r1 r2 = some (s.take i ++ c :: s.drop i) ∧
      (s.take i ++ c :: s.drop i).length = s.length + 1) ∧
    fuzzCommand s false r1 r2 = some s := by
  constructor
  · refine ⟨specialChars.getD (r2 % specialChars.length) ' ', r1 % s.length,
      specialChars_getD_mem _ (Nat.mod_lt r2 (by decide)),
      Nat.le_of_lt (Nat.mod_lt r1 (Nat.pos_of_ne_zero hs)),
      fuzzCommand_enabled s hs r1 r2, ?_⟩
    have hle : r1 % s.length ≤ s.length := Nat.le_of_lt (Nat.mod_lt r1 (Nat.pos_of_ne_zero hs))
    simp only [List.length_append, List.length_take, List.length_cons, List.length_drop]
    omega
  · rw [fuzzCommand, if_pos rfl]

theorem mutate_shape_amended_witness :
    (∃ c i, c ∈ specialChars ∧ i ≤ (['G', 'E', 'T'] : List Char).length ∧
      fuzzCommand ['G', 'E', 'T'] true 4 9 =
        some ((['G', 'E', 'T'] : List Char).take i ++ c :: (['G', 'E', 'T'] : List Char).drop i) ∧
      ((['G', 'E', 'T'] : List Char).take i ++ c :: (['G', 'E', 'T'] : List Char).drop i).length =
        (['G', 'E', 'T'] : List Char).length + 1) ∧
    fuzzCommand ['G', 'E', 'T'] false 4 9 = some ['G', 'E', 'T'] :=
  mutate_shape_amended ['G', 'E', 'T'] (by decide) 4 9

/-- C4: for a corpus of `N ≥ 1` lines, `randomCommand` picks line index
`rand() % N`, which lies in `[0, N)` and is equidistributed when the `rand()`
value ranges over any whole number of periods; `readLineFromFile` returns
exactly the 0-based `i`-th line for every `i < N`.  (The re-reading of the
file on each call is not observable: the file is modelled as its fixed list
of lines, and only the selected line is returned.) -/
theorem sample_returns_corpus_line (file : List (List Char)) (r i k : Nat)
    (hN : 0 < countFileLines file) (hi : i < file.length) :
    randomCommand file (countFileLines file) r = file.getD (r % file.length) [] ∧
    r % file.length < file.length ∧
    readLineFromFile file i = file.getD i [] ∧
    ((Finset.range (k * file.length)).filter (fun x => x % file.length = i)).card = k := by
  have hlen : countFileLines file = file.length := countFileLines_eq_length file
  have hpos : 0 < file.length := hlen ▸ hN
  refine ⟨?_, Nat.mod_lt r hpos, readLineFromFile_spec file i hi,
    card_range_mod file.length i k hpos hi⟩
  rw [randomCommand, hlen, readLineFromFile_spec file _ (Nat.mod_lt r hpos)]

theorem sample_returns_corpus_line_witness :
    randomCommand [['a'], ['b'], ['c']] (countFileLines [['a'], ['b'], ['c']]) 7 =
      ([['a'], ['b'], ['c']] : List (List Char)).getD
        (7 % ([['a'], ['b'], ['c']] : List (List Char)).length) [] ∧
    7 % ([['a'], ['b'], ['c']] : List (List Char)).length <
      ([['a'], ['b'], ['c']] : List (List Char)).length ∧
    readLineFromFile [['a'], ['b'], ['c']] 2 =
      ([['a'], ['b'], ['c']] : List (List Char)).getD 2 [] ∧
    ((Finset.range (5 * ([['a'], ['b'], ['c']] : List (List Char)).length)).filter
      (fun x => x % ([['a'], ['b'], ['c']] : List (List Char)).length = 2)).card = 5 :=
  sample_returns_corpus_line [['a'], ['b'], ['c']] 7 2 5 (by decide) (by decide)

/-- C5: every batch built by the main loop has length `pipelineSize + 1` with
`pipelineSize = rand() % 10 + 1 ∈ [1, 10]` (equidistributed over whole
periods of the `rand()` value), and its final element is the fixed, never
mutated liveness probe `"PING <port>"`. -/
theorem batch_composition (env : Env) (ridx : Nat) (cmds : List (List Char)) (ridx2 j k : Nat)
    (h : buildBatch env ridx = some (cmds, ridx2)) (hj : j < 10) :
    1 ≤ env.rng ridx % 10 + 1 ∧ env.rng ridx % 10 + 1 ≤ 10 ∧
    cmds.length = (env.rng ridx % 10 + 1) + 1 ∧
    cmds.getLast? = some (pingCommand env.port) ∧
    ((Finset.range (k * 10)).filter (fun x => x % 10 = j)).card = k := by
  obtain ⟨hlen, hlast⟩ := buildBatch_spec env ridx (cmds, ridx2) h
  have hlen2 : cmds.length = env.rng ridx % 10 + 2 := hlen
  have hmod : env.rng ridx % 10 < 10 := Nat.mod_lt _ (by decide)
  exact ⟨by omega, by omega, by omega, hlast, card_range_mod 10 j k (by decide) hj⟩

theorem batch_composition_witness :
    1 ≤ sampleEnv.rng 0 % 10 + 1 ∧ sampleEnv.rng 0 % 10 + 1 ≤ 10 ∧
    ([['S', 'E', 'T'], pingCommand 6379] : List (List Char)).length =
      (sampleEnv.rng 0 % 10 + 1) + 1 ∧
    ([['S', 'E', 'T'], pingCommand 6379] : List (List Char)).getLast? =
      some (pingCommand sampleEnv.port) ∧
    ((Finset.range (2 * 10)).filter (fun x => x % 10 = 3)).card = 2 :=
  batch_composition sampleEnv 0 [['S', 'E', 'T'], pingCommand 6379] 2 3 2 (by rfl) (by decide)

/-- C6: for every successfully logged batch, the three command sequences agree
element for element and in order: the lines of the scratch file (`temp`), the
commands appended to the connection during the batch (the new suffix of
`sent`), and the command lines appended to the audit log for the batch (the
entry after its blank line and header). -/
theorem batch_order_invariant (env : Env) (bn : Nat) (st st2 : St)
    (h : runBatch env bn st = some (BatchOut.next st2)) :
    st2.sent = st.sent ++ st2.temp ∧
    st2.audit = st.audit ++ [] :: batchHeader bn :: st2.temp := by
  obtain ⟨cmds, ridx2, -, htemp, hsent, haudit, -⟩ := runBatch_next_spec env bn st st2 h
  exact ⟨by rw [hsent, htemp], by rw [haudit, htemp]⟩

theorem batch_order_invariant_witness :
    sampleBatchSt.sent = initSt.sent ++ sampleBatchSt.temp ∧
    sampleBatchSt.audit = initSt.audit ++ [] :: batchHeader 1 :: sampleBatchSt.temp :=
  batch_order_invariant sampleEnv 1 initSt sampleBatchSt (by rfl)

/-- C7: if, within a batch of commands `cmds`, the replies with offsets
`0, …, i-1` are read successfully and the read at offset `i` fails (the
`(i+1)`-st reply read of the batch), then exactly `i` replies are consumed,
exactly one more `redisGetReply` call is made (the loop breaks immediately),
the batch is not appended to the audit log, nothing further is sent, no
subsequent batch runs regardless of how many iterations remain, and the run
terminates with exit code 1 (the connection freed, the scratch file left
behind). -/
theorem reply_failure_aborts_run (env : Env) (k bn : Nat) (st : St)
    (cmds : List (List Char)) (ridx2 i : Nat)
    (htemp : env.tempOpenOk bn = true)
    (hbuild : buildBatch env st.ridx = some (cmds, ridx2))
    (hi : i < cmds.length)
    (hok : ∀ j, j < i → env.replyOk (st.replyIdx + j) = true)
    (hfail : env.replyOk (st.replyIdx + i) = false) :
    runLoop env (k + 1) bn st =
      some ⟨1, true, false, ⟨ridx2, st.replyIdx + i + 1, st.repliesConsumed + i,
        st.sent ++ cmds, cmds, st.audit⟩⟩ := by
  have hread := readReplies_fail env i cmds.length st.replyIdx st.repliesConsumed hi hok hfail
  have hrb : runBatch env bn st = some (BatchOut.fatalRead ⟨ridx2, st.replyIdx + i + 1,
      st.repliesConsumed + i, st.sent ++ cmds, cmds, st.audit⟩) := by
    rw [runBatch, if_neg (by simp [htemp]), hbuild]
    simp [hread]
  rw [runLoop, hrb]

theorem reply_failure_aborts_run_witness :
    runLoop failEnv 1 1 initSt =
      some ⟨1, true, false, ⟨2, 2, 1, [['G', 'E', 'T'], pingCommand 6379],
        [['G', 'E', 'T'], pingCommand 6379], []⟩⟩ :=
  reply_failure_aborts_run failEnv 0 1 initSt [['G', 'E', 'T'], pingCommand 6379] 2 1
    (by rfl) (by rfl) (by decide) (by decide) (by rfl)

/-- C8, counterexample: in the run `failEnv` the reply read of the only batch
fails; the run exits with code 1 and the connection is freed, but — contrary
to the claim — the scratch file is NOT removed on this error exit (the code's
error paths return without calling `std::remove`). -/
theorem scratch_not_removed_on_error :
    (mainRun failEnv 1).map (fun res => (res.exitCode, res.connFreed, res.tempRemoved)) =
      some (1, true, false) := by
  rfl

/-- C8 (amended): on every exit path of the run the connection is released
(`redisFree` is called), but the scratch file is removed if and only if the
run completes normally with exit code 0; on every error exit (scratch-file
open failure, reply read failure, audit-log open failure) the scratch file is
left behind. -/
theorem cleanup_amended (env : Env) (numBatches : Int) (res : RunResult)
    (h : mainRun env numBatches = some res) :
    res.connFreed = true ∧ (res.tempRemoved = true ↔ res.exitCode = 0) :=
  runLoop_cleanup env numBatches.toNat 1 initSt res h

theorem cleanup_amended_witness :
    failRes.connFreed = true ∧ (failRes.tempRemoved = true ↔ failRes.exitCode = 0) :=
  cleanup_amended failEnv 1 failRes (by rfl)

/-- C9: whatever the run's outcome, the audit log grows append-only by a list
of per-batch entries, each consisting of a blank line, the line
`BATCH NUMBER - n`, and the batch's commands one per line; the batch numbers
of the entries are consecutive starting at the first batch number (so after a
run of `k` successful batches starting at 1 they are `1, …, k` in increasing
order), and on a normal exit the logged commands are exactly the sent
commands in send order. -/
theorem audit_log_entries (env : Env) (k bn : Nat) (st : St) (res : RunResult)
    (h : runLoop env k bn st = some res) :
    ∃ entries : List (Nat × List (List Char)),
      res.st.audit = st.audit ++ (entries.map (fun e => [] :: batchHeader e.1 :: e.2)).flatten ∧
      entries.map Prod.fst = List.range' bn entries.length ∧
      (res.exitCode = 0 → res.st.sent = st.sent ++ (entries.map Prod.snd).flatten) :=
  runLoop_audit env k bn st res h

theorem audit_log_entries_witness :
    ∃ entries : List (Nat × List (List Char)),
      sampleRes.st.audit =
        initSt.audit ++ (entries.map (fun e => [] :: batchHeader e.1 :: e.2)).flatten ∧
      entries.map Prod.fst = List.range' 1 entries.length ∧
      (sampleRes.exitCode = 0 →
        sampleRes.st.sent = initSt.sent ++ (entries.map Prod.snd).flatten) :=
  audit_log_entries sampleEnv 1 1 initSt sampleRes (by rfl)

/-- C10: when the requested number of batches is zero or negative, the batch
loop body never executes — no `rand()` call, no command sampled, mutated,
sent, or logged, no audit entry — and the run reaches the normal-exit
cleanup: connection freed, scratch file removed, exit code 0, with the state
still `initSt`. -/
theorem nonpositive_batches_noop (env : Env) (numBatches : Int) (h : numBatches ≤ 0) :
    mainRun env numBatches = some ⟨0, true, true, initSt⟩ := by
  rw [mainRun, Int.toNat_of_nonpos h, runLoop]

theorem nonpositive_batches_noop_witness :
    mainRun sampleEnv (-2) = some ⟨0, true, true, initSt⟩ :=
  nonpositive_batches_noop sampleEnv (-2) (by decide)

end RedisFuzzer
